import Mathlib

/-!
Verification of the DAG manager of the Virtual-manager backend
(`backend/app/core/dag.py`).

Tasks are stored in a relational store; the `DAGManager` class offers
static graph algorithms (`build_graph`, `detect_cycles`, `get_blocked_tasks`,
`topological_sort`) over loaded task objects, and stateful operations
(`add_dependency`, `remove_dependency`, `update_downstream_status`,
`_try_unblock_task`, `validate_status_change`) over the store.

The store is modelled as an explicit state (`DBState`) holding the task rows
and the dependency rows; SQLAlchemy queries become list searches, in the
order the source performs them.  Python's recursive DFS is modelled with a
fuel parameter; the fuel bound used by the executable definitions is proved
sufficient, so the fuel-exhaustion branch is dead code.
-/

namespace DagSpec

abbrev TaskId := String

/-- The `TaskStatus` enum from `backend/app/models.py`. -/
inductive TaskStatus where
  | not_started
  | in_progress
  | blocked
  | completed
  | cancelled
deriving DecidableEq, Repr

/-- Source `TaskStatus.value`: the string payload of each enum member. -/
def TaskStatus.value : TaskStatus → String
  | .not_started => "not_started"
  | .in_progress => "in_progress"
  | .blocked => "blocked"
  | .completed => "completed"
  | .cancelled => "cancelled"

/-- A loaded task object as the static `DAGManager` methods see it:
its id, name, status, project and the `depends_on_id` list of its
`dependencies` relationship. -/
structure Task where
  id : TaskId
  name : String
  status : TaskStatus
  projectId : String
  deps : List TaskId
deriving DecidableEq, Repr

/-- A task row of the store (the `dependencies` relationship is kept
separately in `DBState.deps`). -/
structure TaskRec where
  id : TaskId
  name : String
  status : TaskStatus
  projectId : String
deriving DecidableEq, Repr

/-- The database state: task rows and `TaskDependency` rows
`(task_id, depends_on_id)`. -/
structure DBState where
  tasks : List TaskRec
  deps : List (TaskId × TaskId)
deriving DecidableEq, Repr

/-- Load a task object from the store: attach its dependency rows,
as the `Task.dependencies` relationship does. -/
def loadTask (s : DBState) (t : TaskRec) : Task :=
  { id := t.id, name := t.name, status := t.status, projectId := t.projectId,
    deps := (s.deps.filter (fun d => decide (d.1 = t.id))).map (fun d => d.2) }

/-- Models `db.query(Task).filter(Task.id == id).first()`. -/
def findTask (s : DBState) (i : TaskId) : Option TaskRec :=
  s.tasks.find? (fun t => decide (t.id = i))

/-- Status of the task with the given id, if it exists. -/
def statusOf (s : DBState) (i : TaskId) : Option TaskStatus :=
  (findTask s i).map (fun t => t.status)

/-- Mutating the status attribute of the ORM object with the given id. -/
def setStatus (s : DBState) (i : TaskId) (st : TaskStatus) : DBState :=
  { s with tasks := s.tasks.map (fun t => if t.id = i then { t with status := st } else t) }

/-! ## Static graph algorithms -/

/-- Adjacency-list graph: key = task id, value = prerequisite ids
(`DAGManager.build_graph`). -/
abbrev Graph := List (TaskId × List TaskId)

/-- Source `DAGManager.build_graph`. -/
def build_graph (tasks : List Task) : Graph :=
  tasks.map (fun t => (t.id, t.deps))

/-- Models `graph.get(node, [])`. -/
def nbrs (g : Graph) (n : TaskId) : List TaskId :=
  match g.find? (fun p => decide (p.1 = n)) with
  | some p => p.2
  | none => []

/-- The hypothetical-edge insertion performed by `detect_cycles` when
`new_dependency` is given: append `dep_id` to `graph[task_id]`,
creating the entry if absent. -/
def add_edge (g : Graph) (taskId depId : TaskId) : Graph :=
  if g.any (fun p => decide (p.1 = taskId)) then
    g.map (fun p => if p.1 = taskId then (p.1, p.2 ++ [depId]) else p)
  else
    g ++ [(taskId, [depId])]

/-- The graph `detect_cycles` works on: the built graph, possibly
extended with the hypothetical new dependency. -/
def graph_plus (g : Graph) : Option (TaskId × TaskId) → Graph
  | none => g
  | some (taskId, depId) => add_edge g taskId depId

/-- All node names occurring in the adjacency list (keys and targets);
bounds everything DFS can ever visit. -/
def nodesOf (g : Graph) : List TaskId :=
  g.map (fun p => p.1) ++ g.foldr (fun p acc => p.2 ++ acc) []

/-- Fuel that provably suffices for the recursive DFS. -/
def fuelOf (g : Graph) : Nat :=
  (nodesOf g).length + 1

/-- The `for neighbor in neighbors` loop of the cycle-detection `dfs`
(also the shape of the outer `for node in graph` loop, with an empty
recursion stack).  `next` is the recursive call. -/
def dfs_list (next : TaskId → List TaskId → List TaskId → Bool × List TaskId) :
    List TaskId → List TaskId → List TaskId → Bool × List TaskId
  | [], visited, _ => (false, visited)
  | n :: rest, visited, stack =>
    if n ∈ visited then
      if n ∈ stack then (true, visited) else dfs_list next rest visited stack
    else
      match next n visited stack with
      | (true, v) => (true, v)
      | (false, v) => dfs_list next rest v stack

/-- The recursive `dfs` of `DAGManager.detect_cycles`: mark the node
visited, push it on the recursion stack, walk the neighbors.  The fuel-0
branch is unreachable for the fuel used by `detect_cycles` (proved below). -/
def dfs_visit (g : Graph) : Nat → TaskId → List TaskId → List TaskId → Bool × List TaskId
  | 0, _, visited, _ => (false, visited)
  | fuel + 1, node, visited, stack =>
    dfs_list (fun n v s => dfs_visit g fuel n v s) (nbrs g node) (node :: visited) (node :: stack)

/-- Source `DAGManager.detect_cycles`. -/
def detect_cycles (tasks : List Task) (new_dependency : Option (TaskId × TaskId)) : Bool :=
  let g := graph_plus (build_graph tasks) new_dependency
  (dfs_list (fun n v s => dfs_visit g (fuelOf g) n v s) (g.map (fun p => p.1)) [] []).1

/-- The `for neighbor in neighbors` loop of the `topological_sort` `dfs`
(also the outer root loop).  State: visited set and output list. -/
def topo_list (next : TaskId → List TaskId → List TaskId → List TaskId × List TaskId) :
    List TaskId → List TaskId → List TaskId → List TaskId × List TaskId
  | [], visited, out => (visited, out)
  | n :: rest, visited, out =>
    if n ∈ visited then topo_list next rest visited out
    else
      match next n visited out with
      | (v, o) => topo_list next rest v o

/-- The recursive `dfs` of `DAGManager.topological_sort`: mark visited,
walk unvisited neighbors, append the node to the output afterwards. -/
def topo_visit (g : Graph) : Nat → TaskId → List TaskId → List TaskId → List TaskId × List TaskId
  | 0, _, visited, out => (visited, out)
  | fuel + 1, node, visited, out =>
    match topo_list (fun n v o => topo_visit g fuel n v o) (nbrs g node) (node :: visited) out with
    | (v, o) => (v, o ++ [node])

/-- Source `DAGManager.topological_sort`. -/
def topological_sort (tasks : List Task) : List TaskId :=
  let g := build_graph tasks
  (topo_list (fun n v o => topo_visit g (fuelOf g) n v o) (g.map (fun p => p.1)) [] []).2

/-- Source `DAGManager.get_blocked_tasks` (the returned Python set, as the list of
ids of the matching tasks). -/
def get_blocked_tasks (tasks : List Task) : List TaskId :=
  (tasks.filter (fun t =>
    decide (¬ t.status = TaskStatus.completed) &&
    t.deps.any (fun depId =>
      match (tasks.find? (fun u => decide (u.id = depId))).map (fun u => u.status) with
      | none => true
      | some st => decide (¬ st = TaskStatus.completed)))).map (fun t => t.id)

/-! ## Stateful operations -/

/-- The result dict of a failed stateful call: `error` kind and optional
`message`. -/
structure CallErr where
  error : String
  message : Option String := none
deriving DecidableEq, Repr

/-- The result dict of a successful `add_dependency`. -/
structure AddOk where
  blocker_id : TaskId
  blocked_id : TaskId
  blocked_status : TaskStatus
deriving DecidableEq, Repr

/-- Source `DAGManager._try_unblock_task`: returns whether the task was unblocked,
together with the resulting store state. -/
def try_unblock_task (s : DBState) (taskId : TaskId) : Bool × DBState :=
  let dependencies := s.deps.filter (fun d => decide (d.1 = taskId))
  if dependencies.all (fun d =>
      match findTask s d.2 with
      | some blocker => decide (blocker.status = TaskStatus.completed)
      | none => true) then
    (true, setStatus s taskId TaskStatus.not_started)
  else
    (false, s)

/-- Source `DAGManager.add_dependency` (with a live session). -/
def add_dependency (s : DBState) (blocker_id blocked_id : TaskId) :
    Except CallErr AddOk × DBState :=
  if blocker_id = blocked_id then
    (.error ⟨"cycle_detected", some "Task cannot depend on itself"⟩, s)
  else
    match findTask s blocker_id with
    | none => (.error ⟨"blocker_not_found", none⟩, s)
    | some blocker =>
      match findTask s blocked_id with
      | none => (.error ⟨"blocked_not_found", none⟩, s)
      | some blocked =>
        if s.deps.any (fun d => decide (d.1 = blocked_id) && decide (d.2 = blocker_id)) then
          (.error ⟨"dependency_exists", none⟩, s)
        else
          let tasks := (s.tasks.filter (fun t => decide (t.projectId = blocked.projectId))).map (loadTask s)
          if detect_cycles tasks (some (blocked_id, blocker_id)) then
            (.error ⟨"cycle_detected", some "Adding this dependency would create a circular reference"⟩, s)
          else
            let s1 : DBState := { s with deps := s.deps ++ [(blocked_id, blocker_id)] }
            if blocker.status = TaskStatus.completed then
              (.ok ⟨blocker_id, blocked_id, blocked.status⟩, s1)
            else
              (.ok ⟨blocker_id, blocked_id, TaskStatus.blocked⟩, setStatus s1 blocked_id TaskStatus.blocked)

/-- Source `DAGManager.remove_dependency` (with a live session). -/
def remove_dependency (s : DBState) (blocker_id blocked_id : TaskId) :
    Except CallErr Unit × DBState :=
  if s.deps.any (fun d => decide (d.1 = blocked_id) && decide (d.2 = blocker_id)) then
    let s1 : DBState :=
      { s with deps := s.deps.eraseP (fun d => decide (d.1 = blocked_id) && decide (d.2 = blocker_id)) }
    match findTask s1 blocked_id with
    | some blocked =>
      if blocked.status = TaskStatus.blocked then (.ok (), (try_unblock_task s1 blocked_id).2)
      else (.ok (), s1)
    | none => (.ok (), s1)
  else
    (.error ⟨"dependency_not_found", none⟩, s)

/-- One entry of the `unblocked_tasks` list of `update_downstream_status`. -/
structure UnblockedInfo where
  id : TaskId
  name : String
  new_status : String
deriving DecidableEq, Repr

/-- The result dict of `update_downstream_status`. -/
structure DownstreamResult where
  completed_task_id : TaskId
  unblocked_count : Nat
  unblocked_tasks : List UnblockedInfo
deriving DecidableEq, Repr

/-- The `for dep in downstream_deps` loop of `update_downstream_status`. -/
def uds_loop : List (TaskId × TaskId) → DBState → List UnblockedInfo →
    DBState × List UnblockedInfo
  | [], s, acc => (s, acc)
  | dep :: rest, s, acc =>
    match findTask s dep.1 with
    | some blockedTask =>
      if blockedTask.status = TaskStatus.blocked then
        match try_unblock_task s dep.1 with
        | (true, s1) =>
          uds_loop rest s1
            (acc ++ [{ id := blockedTask.id, name := blockedTask.name,
                       new_status := TaskStatus.value TaskStatus.not_started }])
        | (false, s1) => uds_loop rest s1 acc
      else uds_loop rest s acc
    | none => uds_loop rest s acc

/-- Source `DAGManager.update_downstream_status` (with a live session). -/
def update_downstream_status (s : DBState) (completedTaskId : TaskId) :
    DownstreamResult × DBState :=
  let rows := s.deps.filter (fun d => decide (d.2 = completedTaskId))
  match uds_loop rows s [] with
  | (s1, infos) =>
    ({ completed_task_id := completedTaskId, unblocked_count := infos.length,
       unblocked_tasks := infos }, s1)

/-- Source `DAGManager.validate_status_change` (with a live session). -/
def validate_status_change (s : DBState) (taskId : TaskId) (newStatus : TaskStatus) :
    Bool × Option String :=
  match findTask s taskId with
  | none => (false, some "Task not found")
  | some task =>
    if task.status = TaskStatus.blocked ∧
        (newStatus = TaskStatus.in_progress ∨ newStatus = TaskStatus.completed) then
      let deps := s.deps.filter (fun d => decide (d.1 = taskId))
      let incomplete :=
        ((deps.filterMap (fun d => findTask s d.2)).filter
          (fun b => decide (¬ b.status = TaskStatus.completed))).map (fun b => b.name)
      (false, some ("Cannot proceed: blocked by " ++ String.intercalate ", " incomplete))
    else
      (true, none)

/-! ## Graph-theoretic notions -/

/-- The edge relation of an adjacency-list graph. -/
def Edge (g : Graph) (a b : TaskId) : Prop := b ∈ nbrs g a

/-- The graph contains a directed cycle. -/
def GCycle (g : Graph) : Prop := ∃ n, Relation.TransGen (Edge g) n n

/-- The dependency-row set, viewed as a directed graph over task ids,
contains a cycle. -/
def DepCycle (deps : List (TaskId × TaskId)) : Prop :=
  ∃ n, Relation.TransGen (fun a b => (a, b) ∈ deps) n n

/-- The DFS recursion stack is a chain: each entry is a neighbor of the
entry below it (head = innermost call). -/
def StackChain (g : Graph) : List TaskId → Prop
  | [] => True
  | [_] => True
  | a :: b :: rest => Edge g b a ∧ StackChain g (b :: rest)

/-- The output list is in topological order: every neighbor of an element
appears strictly earlier. -/
def TopoOk (g : Graph) (out : List TaskId) : Prop :=
  ∀ (j : Nat) (z y : TaskId), out[j]? = some z → Edge g z y →
    ∃ i : Nat, i < j ∧ out[i]? = some y

/-- Number of distinct nodes of the universe `U` not yet visited;
the measure that bounds the DFS nesting depth. -/
def Ucount (U visited : List TaskId) : Nat :=
  (U.toFinset \ visited.toFinset).card

/-- Specification of one step of the cycle-detection DFS (what the
recursive call provides to the neighbor loop): the visited set grows within
`U`, a `true` result certifies a cycle, a `false` result is certified by a
topologically ordered list of the finished nodes. -/
def DfsSpec (g : Graph) (U : List TaskId) (C : Nat)
    (next : TaskId → List TaskId → List TaskId → Bool × List TaskId) : Prop :=
  ∀ node visited stack out,
    node ∉ visited → node ∈ U →
    (∀ x ∈ visited, x ∈ U) →
    (∀ x ∈ stack, x ∈ visited) →
    Ucount U visited < C →
    StackChain g (node :: stack) →
    (∀ x, x ∈ out ↔ (x ∈ visited ∧ x ∉ stack)) →
    TopoOk g out → out.Nodup →
    (∀ x ∈ visited, x ∈ (next node visited stack).2) ∧
    node ∈ (next node visited stack).2 ∧
    (∀ x ∈ (next node visited stack).2, x ∈ U) ∧
    ((next node visited stack).1 = true → GCycle g) ∧
    ((next node visited stack).1 = false →
      ∃ out2, (∀ x ∈ out, x ∈ out2) ∧
        (∀ x, x ∈ out2 ↔ (x ∈ (next node visited stack).2 ∧ x ∉ stack)) ∧
        TopoOk g out2 ∧ out2.Nodup)

/-- Specification of one step of the topological-sort DFS, with a ghost
recursion stack; usable only on acyclic graphs. -/
def TopoSpec (g : Graph) (U : List TaskId) (C : Nat)
    (next : TaskId → List TaskId → List TaskId → List TaskId × List TaskId) : Prop :=
  ∀ node visited out stack,
    node ∉ visited → node ∈ U →
    (∀ x ∈ visited, x ∈ U) →
    (∀ x ∈ stack, x ∈ visited) →
    Ucount U visited < C →
    StackChain g (node :: stack) →
    (∀ x, x ∈ out ↔ (x ∈ visited ∧ x ∉ stack)) →
    TopoOk g out → out.Nodup →
    ¬ GCycle g →
    (∀ x ∈ visited, x ∈ (next node visited out).1) ∧
    node ∈ (next node visited out).1 ∧
    (∀ x ∈ (next node visited out).1, x ∈ U) ∧
    (∀ x ∈ out, x ∈ (next node visited out).2) ∧
    (∀ x, x ∈ (next node visited out).2 ↔ (x ∈ (next node visited out).1 ∧ x ∉ stack)) ∧
    TopoOk g (next node visited out).2 ∧ (next node visited out).2.Nodup

/-! ## Concrete instances used by witnesses and counterexamples -/

/-- Two tasks with a circular dependency, as loaded task objects. -/
def cycTasks : List Task :=
  [{ id := "a", name := "A", status := .not_started, projectId := "p", deps := ["b"] },
   { id := "b", name := "B", status := .not_started, projectId := "p", deps := ["a"] }]

/-- Two tasks, the first depending on the second; acyclic. -/
def lineTasks : List Task :=
  [{ id := "a", name := "A", status := .not_started, projectId := "p", deps := ["b"] },
   { id := "b", name := "B", status := .not_started, projectId := "p", deps := [] }]

/-- Two fresh tasks in one project, no dependencies yet. -/
def dbTwo : DBState :=
  { tasks := [{ id := "a", name := "A", status := .not_started, projectId := "p" },
              { id := "b", name := "B", status := .not_started, projectId := "p" }],
    deps := [] }

/-- Store in which task `a` depends on task `b` (row `("a", "b")`). -/
def dbLine : DBState :=
  { tasks := [{ id := "a", name := "A", status := .not_started, projectId := "p" },
              { id := "b", name := "B", status := .not_started, projectId := "p" }],
    deps := [("a", "b")] }

/-- Task `b` is blocked by `a`, which is still in progress. -/
def dbBlocked : DBState :=
  { tasks := [{ id := "a", name := "A", status := .in_progress, projectId := "p" },
              { id := "b", name := "B", status := .blocked, projectId := "p" }],
    deps := [("b", "a")] }

/-- Task `b` is still marked blocked although its only blocker `a` is
completed. -/
def dbReady : DBState :=
  { tasks := [{ id := "a", name := "A", status := .completed, projectId := "p" },
              { id := "b", name := "B", status := .blocked, projectId := "p" }],
    deps := [("b", "a")] }

/-- Task `b` is blocked by completed `a` and by a dependency row whose
blocker id `ghost` has no task record. -/
def dbGhost : DBState :=
  { tasks := [{ id := "a", name := "A", status := .completed, projectId := "p" },
              { id := "b", name := "B", status := .blocked, projectId := "p" }],
    deps := [("b", "a"), ("b", "ghost")] }

/-- The `unblocked_tasks` entry appended for a task record `t` by
`update_downstream_status`. -/
def unblockedEntry (t : TaskRec) : UnblockedInfo :=
  { id := t.id, name := t.name, new_status := TaskStatus.value TaskStatus.not_started }

/-- The store mutations whose sequencing claim C1 is about. -/
inductive DagOp where
  | addDep (blocker blocked : TaskId)
  | removeDep (blocker blocked : TaskId)
deriving DecidableEq, Repr

/-- The state after one call (successful or not). -/
def applyOp (s : DBState) : DagOp → DBState
  | .addDep bk bd => (add_dependency s bk bd).2
  | .removeDep bk bd => (remove_dependency s bk bd).2

/-- The state after a sequence of calls. -/
def applyOps (s : DBState) (ops : List DagOp) : DBState :=
  ops.foldl applyOp s

/-- Every task of the store belongs to project `p`. -/
def OneProject (p : String) (s : DBState) : Prop :=
  ∀ t ∈ s.tasks, t.projectId = p

/-- Every dependency row's `task_id` references an existing task. -/
def ClosedDeps (s : DBState) : Prop :=
  ∀ d ∈ s.deps, ∃ t ∈ s.tasks, t.id = d.1

/-- Two tasks in different projects, no dependencies: the cross-project
scenario on which the project-scoped cycle check is blind. -/
def csCross : DBState :=
  { tasks := [{ id := "a", name := "A", status := .not_started, projectId := "p1" },
              { id := "b", name := "B", status := .not_started, projectId := "p2" }],
    deps := [] }

/-! ## Lemmas -/

lemma stack_reach {g : Graph} : ∀ {s : List TaskId} {a m : TaskId},
    StackChain g (a :: s) → m ∈ a :: s → Relation.ReflTransGen (Edge g) m a
  | [], _, m, _, hm => by
    rcases List.mem_singleton.mp hm with rfl
    exact .refl
  | b :: rest, a, m, hc, hm => by
    rcases List.mem_cons.mp hm with rfl | hm2
    · exact .refl
    · exact (stack_reach (g := g) hc.2 hm2).tail hc.1

lemma cycle_of_stack {g : Graph} {node n : TaskId} {s : List TaskId}
    (hc : StackChain g (node :: s)) (hmem : n ∈ node :: s) (he : Edge g node n) :
    GCycle g :=
  ⟨node, Relation.TransGen.trans_left (Relation.TransGen.single he) (stack_reach hc hmem)⟩

lemma stackChain_cons {g : Graph} {node n : TaskId} {s : List TaskId}
    (hc : StackChain g (node :: s)) (he : Edge g node n) :
    StackChain g (n :: node :: s) := ⟨he, hc⟩

lemma topoOk_nil (g : Graph) : TopoOk g [] := by
  unfold TopoOk
  intro j z y hj
  simp at hj

lemma topoOk_append {g : Graph} {out : List TaskId} {node : TaskId} (h : TopoOk g out)
    (hn : ∀ y, Edge g node y → y ∈ out) : TopoOk g (out ++ [node]) := by
  unfold TopoOk
  intro j z y hj he
  by_cases hlt : j < out.length
  · rw [List.getElem?_append_left hlt] at hj
    obtain ⟨i, hij, hiy⟩ := h j z y hj he
    exact ⟨i, hij, by rw [List.getElem?_append_left (by omega)]; exact hiy⟩
  · have hj1 : j < out.length + 1 := by
      have := (List.getElem?_eq_some_iff.mp hj).1
      simpa using this
    have hj' : j = out.length := by omega
    subst hj'
    rw [List.getElem?_concat_length] at hj
    have hz : z = node := by injection hj with h'; exact h'.symm
    subst hz
    obtain ⟨i, hi⟩ := List.mem_iff_getElem?.mp (hn y he)
    have hilt : i < out.length := (List.getElem?_eq_some_iff.mp hi).1
    exact ⟨i, by omega, by rw [List.getElem?_append_left hilt]; exact hi⟩

lemma topoOk_desc {g : Graph} {out : List TaskId} (h : TopoOk g out) :
    ∀ {a b}, Relation.TransGen (Edge g) a b →
      ∀ j : Nat, out[j]? = some a → ∃ i : Nat, i < j ∧ out[i]? = some b := by
  intro a b htg
  induction htg with
  | single he =>
    intro j hj
    exact h j _ _ hj he
  | tail _ he ih =>
    intro j hj
    obtain ⟨i, hij, hib⟩ := ih j hj
    obtain ⟨k, hki, hkc⟩ := h i _ _ hib he
    exact ⟨k, by omega, hkc⟩

lemma outgoing_of_cycle {g : Graph} {n : TaskId}
    (h : Relation.TransGen (Edge g) n n) : ∃ m, Edge g n m := by
  obtain ⟨c, hc, _⟩ := (Relation.TransGen.head'_iff).mp h
  exact ⟨c, hc⟩

lemma no_cycle_of_topoOk {g : Graph} {out : List TaskId} (h : TopoOk g out)
    (hnd : out.Nodup) (hcl : ∀ a b, Edge g a b → a ∈ out) : ¬ GCycle g := by
  rintro ⟨n, hn⟩
  obtain ⟨m, hm⟩ := outgoing_of_cycle hn
  obtain ⟨j, hj⟩ := List.mem_iff_getElem?.mp (hcl n m hm)
  obtain ⟨i, hij, hi⟩ := topoOk_desc h hn j hj
  have hilt : i < out.length := (List.getElem?_eq_some_iff.mp hi).1
  have : i = j := List.getElem?_inj hilt hnd (by rw [hi, hj])
  omega

lemma ucount_lt_of_cons {U visited : List TaskId} {node : TaskId}
    (hU : node ∈ U) (hv : node ∉ visited) :
    Ucount U (node :: visited) < Ucount U visited := by
  unfold Ucount
  rw [List.toFinset_cons]
  apply Finset.card_lt_card
  rw [Finset.ssubset_iff_of_subset
    (Finset.sdiff_subset_sdiff (le_refl _) (Finset.subset_insert _ _))]
  exact ⟨node, by simp [hU, hv]⟩

lemma ucount_le_of_subset {U v v' : List TaskId} (h : ∀ x ∈ v, x ∈ v') :
    Ucount U v' ≤ Ucount U v :=
  Finset.card_le_card (Finset.sdiff_subset_sdiff (le_refl _)
    (fun x hx => List.mem_toFinset.mpr (h x (List.mem_toFinset.mp hx))))

lemma ucount_nil_lt (U : List TaskId) : Ucount U [] < U.length + 1 := by
  unfold Ucount
  simp only [List.toFinset_nil, Finset.sdiff_empty]
  exact Nat.lt_succ_of_le (List.toFinset_card_le U)

lemma edge_mem_keys {g : Graph} {a b : TaskId} (h : Edge g a b) :
    a ∈ g.map (fun p => p.1) := by
  unfold Edge nbrs at h
  rcases hf : g.find? (fun p => decide (p.1 = a)) with _ | p
  · rw [hf] at h; simp at h
  · have hp := List.find?_some hf
    have hmem := List.mem_of_find?_eq_some hf
    have : p.1 = a := by simpa using hp
    exact this ▸ List.mem_map.mpr ⟨p, hmem, rfl⟩

lemma mem_foldr_targets {g : Graph} {p : TaskId × List TaskId} {x : TaskId}
    (hp : p ∈ g) (hx : x ∈ p.2) : x ∈ g.foldr (fun q acc => q.2 ++ acc) [] := by
  induction g with
  | nil => cases hp
  | cons q rest ih =>
    rcases List.mem_cons.mp hp with rfl | hp2
    · exact List.mem_append_left _ hx
    · exact List.mem_append_right _ (ih hp2)

lemma edge_target_mem_nodesOf {g : Graph} {a b : TaskId} (h : Edge g a b) :
    b ∈ nodesOf g := by
  unfold Edge nbrs at h
  rcases hf : g.find? (fun p => decide (p.1 = a)) with _ | p
  · rw [hf] at h; simp at h
  · rw [hf] at h
    exact List.mem_append_right _ (mem_foldr_targets (List.mem_of_find?_eq_some hf) h)

lemma keys_mem_nodesOf {g : Graph} {a : TaskId} (h : a ∈ g.map (fun p => p.1)) :
    a ∈ nodesOf g :=
  List.mem_append_left _ h

lemma dfs_list_nil {next} {visited stack : List TaskId} :
    dfs_list next [] visited stack = (false, visited) := rfl

lemma dfs_list_cons_mem_stack {next} {n : TaskId} {rest visited stack : List TaskId}
    (h1 : n ∈ visited) (h2 : n ∈ stack) :
    dfs_list next (n :: rest) visited stack = (true, visited) := by
  simp [dfs_list, h1, h2]

lemma dfs_list_cons_mem {next} {n : TaskId} {rest visited stack : List TaskId}
    (h1 : n ∈ visited) (h2 : n ∉ stack) :
    dfs_list next (n :: rest) visited stack = dfs_list next rest visited stack := by
  simp [dfs_list, h1, h2]

lemma dfs_list_cons_new_true {next} {n : TaskId} {rest visited stack v1 : List TaskId}
    (h1 : n ∉ visited) (h2 : next n visited stack = (true, v1)) :
    dfs_list next (n :: rest) visited stack = (true, v1) := by
  simp [dfs_list, h1, h2]

lemma dfs_list_cons_new_false {next} {n : TaskId} {rest visited stack v1 : List TaskId}
    (h1 : n ∉ visited) (h2 : next n visited stack = (false, v1)) :
    dfs_list next (n :: rest) visited stack = dfs_list next rest v1 stack := by
  simp [dfs_list, h1, h2]

lemma dfs_list_spec {g : Graph} {U : List TaskId} {C : Nat}
    {next : TaskId → List TaskId → List TaskId → Bool × List TaskId}
    (hnext : DfsSpec g U C next) :
    ∀ (l : List TaskId) (visited stack out : List TaskId),
      (∀ n ∈ l, n ∈ U) →
      (∀ x ∈ visited, x ∈ U) →
      (∀ x ∈ stack, x ∈ visited) →
      Ucount U visited < C →
      (∀ n ∈ l, StackChain g (n :: stack)) →
      (∀ n ∈ l, n ∈ stack → GCycle g) →
      (∀ x, x ∈ out ↔ (x ∈ visited ∧ x ∉ stack)) →
      TopoOk g out → out.Nodup →
      (∀ x ∈ visited, x ∈ (dfs_list next l visited stack).2) ∧
      (∀ x ∈ (dfs_list next l visited stack).2, x ∈ U) ∧
      ((dfs_list next l visited stack).1 = true → GCycle g) ∧
      ((dfs_list next l visited stack).1 = false →
        ∃ out2, (∀ x ∈ out, x ∈ out2) ∧
          (∀ x, x ∈ out2 ↔ (x ∈ (dfs_list next l visited stack).2 ∧ x ∉ stack)) ∧
          TopoOk g out2 ∧ out2.Nodup ∧ (∀ n ∈ l, n ∈ out2)) := by
  intro l
  induction l with
  | nil =>
    intro visited stack out _ hvU _ _ _ _ iso ht hnd
    rw [dfs_list_nil]
    refine ⟨fun x hx => hx, hvU, by simp, ?_⟩
    intro _
    exact ⟨out, fun x hx => hx, fun x => iso x, ht, hnd, by simp⟩
  | cons n rest ih =>
    intro visited stack out hl hvU hsv hC hch hms iso ht hnd
    by_cases hv : n ∈ visited
    · by_cases hs : n ∈ stack
      · rw [dfs_list_cons_mem_stack hv hs]
        refine ⟨fun x hx => hx, hvU, fun _ => hms n (by simp) hs, ?_⟩
        intro hfalse
        simp at hfalse
      · rw [dfs_list_cons_mem hv hs]
        have hrec := ih visited stack out (fun m hm => hl m (List.mem_cons_of_mem _ hm))
          hvU hsv hC (fun m hm => hch m (List.mem_cons_of_mem _ hm))
          (fun m hm => hms m (List.mem_cons_of_mem _ hm)) iso ht hnd
        refine ⟨hrec.1, hrec.2.1, hrec.2.2.1, ?_⟩
        intro hf
        obtain ⟨out2, ho1, ho2, ho3, ho4, ho5⟩ := hrec.2.2.2 hf
        refine ⟨out2, ho1, ho2, ho3, ho4, ?_⟩
        intro m hm
        rcases List.mem_cons.mp hm with rfl | hm2
        · exact ho1 _ ((iso m).mpr ⟨hv, hs⟩)
        · exact ho5 m hm2
    · rcases hnx : next n visited stack with ⟨b, v1⟩
      have hspec := hnext n visited stack out hv (hl n (by simp)) hvU hsv hC
        (hch n (by simp)) iso ht hnd
      rw [hnx] at hspec
      obtain ⟨hs1, hs2, hs3, hs4, hs5⟩ := hspec
      have hnstack : n ∉ stack := fun hmem => hv (hsv n hmem)
      cases b with
      | true =>
        rw [dfs_list_cons_new_true hv hnx]
        refine ⟨fun x hx => hs1 x hx, hs3, fun _ => hs4 rfl, ?_⟩
        intro hfalse
        simp at hfalse
      | false =>
        obtain ⟨out1, ho1, ho2, ho3, ho4⟩ := hs5 rfl
        rw [dfs_list_cons_new_false hv hnx]
        have hrec := ih v1 stack out1 (fun m hm => hl m (List.mem_cons_of_mem _ hm))
          hs3 (fun x hx => hs1 x (hsv x hx))
          (lt_of_le_of_lt (ucount_le_of_subset hs1) hC)
          (fun m hm => hch m (List.mem_cons_of_mem _ hm))
          (fun m hm => hms m (List.mem_cons_of_mem _ hm)) ho2 ho3 ho4
        refine ⟨fun x hx => hrec.1 x (hs1 x hx), hrec.2.1, hrec.2.2.1, ?_⟩
        intro hf
        obtain ⟨out2, hp1, hp2, hp3, hp4, hp5⟩ := hrec.2.2.2 hf
        refine ⟨out2, fun x hx => hp1 x (ho1 x hx), hp2, hp3, hp4, ?_⟩
        intro m hm
        rcases List.mem_cons.mp hm with rfl | hm2
        · exact hp1 _ ((ho2 m).mpr ⟨hs2, hnstack⟩)
        · exact hp5 m hm2

lemma dfs_visit_spec {g : Graph} {U : List TaskId}
    (hUn : ∀ x y, Edge g x y → y ∈ U) :
    ∀ fuel, DfsSpec g U fuel (fun n v s => dfs_visit g fuel n v s) := by
  intro fuel
  induction fuel with
  | zero =>
    intro node visited stack out _ _ _ _ hC
    exact absurd hC (Nat.not_lt_zero _)
  | succ fuel ih =>
    intro node visited stack out hnv hnU hvU hsv hC hchain iso ht hnd
    beta_reduce
    have hnstack : node ∉ stack := fun hmem => hnv (hsv node hmem)
    have hrun : dfs_visit g (fuel + 1) node visited stack
        = dfs_list (fun n v s => dfs_visit g fuel n v s)
            (nbrs g node) (node :: visited) (node :: stack) := rfl
    have hiso : ∀ x, x ∈ out ↔ (x ∈ node :: visited ∧ x ∉ node :: stack) := by
      intro x
      constructor
      · intro hx
        obtain ⟨hx1, hx2⟩ := (iso x).mp hx
        have hxne : x ≠ node := fun h => hnv (h ▸ hx1)
        exact ⟨List.mem_cons_of_mem _ hx1, by simp [hxne, hx2]⟩
      · rintro ⟨hx1, hx2⟩
        have hxne : x ≠ node := by simp at hx2; exact hx2.1
        have hx1' : x ∈ visited := by
          rcases List.mem_cons.mp hx1 with rfl | h
          · exact absurd rfl hxne
          · exact h
        have hx2' : x ∉ stack := by simp at hx2; exact hx2.2
        exact (iso x).mpr ⟨hx1', hx2'⟩
    have hloop := dfs_list_spec ih (nbrs g node) (node :: visited) (node :: stack) out
      (fun y hy => hUn node y hy)
      (fun x hx => by
        rcases List.mem_cons.mp hx with rfl | h
        · exact hnU
        · exact hvU x h)
      (fun x hx => by
        rcases List.mem_cons.mp hx with rfl | h
        · exact List.mem_cons_self _ _
        · exact List.mem_cons_of_mem _ (hsv x h))
      (by have := ucount_lt_of_cons hnU hnv; omega)
      (fun m hm => stackChain_cons hchain hm)
      (fun m hm hmem => cycle_of_stack hchain hmem hm)
      hiso ht hnd
    rw [hrun]
    obtain ⟨hc1, hc2, hc3, hc4⟩ := hloop
    refine ⟨fun x hx => hc1 x (List.mem_cons_of_mem _ hx),
      hc1 node (List.mem_cons_self _ _), hc2, hc3, ?_⟩
    intro hf
    obtain ⟨out2, hp1, hp2, hp3, hp4, hp5⟩ := hc4 hf
    have hnode_in : node ∈ (dfs_list (fun n v s => dfs_visit g fuel n v s)
        (nbrs g node) (node :: visited) (node :: stack)).2 :=
      hc1 node (List.mem_cons_self _ _)
    have hnode_notin_out2 : node ∉ out2 := by
      intro hmem
      have := (hp2 node).mp hmem
      exact this.2 (List.mem_cons_self _ _)
    refine ⟨out2 ++ [node], fun x hx => List.mem_append_left _ (hp1 x hx), ?_, ?_, ?_⟩
    · intro x
      constructor
      · intro hx
        rcases List.mem_append.mp hx with hx2 | hxn
        · obtain ⟨hxa, hxb⟩ := (hp2 x).mp hx2
          exact ⟨hxa, fun h => hxb (List.mem_cons_of_mem _ h)⟩
        · have hxeq : x = node := by simpa using hxn
          subst hxeq
          exact ⟨hnode_in, hnstack⟩
      · rintro ⟨hx1, hx2⟩
        by_cases hxeq : x = node
        · subst hxeq
          exact List.mem_append_right _ (by simp)
        · refine List.mem_append_left _ ((hp2 x).mpr ⟨hx1, ?_⟩)
          simp [hxeq, hx2]
    · exact topoOk_append hp3 (fun y hy => hp5 y hy)
    · rw [List.nodup_append]
      exact ⟨hp4, List.nodup_singleton _, by simp [hnode_notin_out2]⟩

lemma detect_cycles_iff_aux (tasks : List Task) (nd : Option (TaskId × TaskId)) :
    detect_cycles tasks nd = true ↔ GCycle (graph_plus (build_graph tasks) nd) := by
  set g := graph_plus (build_graph tasks) nd with hg
  have hdet : detect_cycles tasks nd
      = (dfs_list (fun n v s => dfs_visit g (fuelOf g) n v s)
          (g.map (fun p => p.1)) [] []).1 := rfl
  have hnext := dfs_visit_spec (g := g) (U := nodesOf g)
    (fun _ _ h => edge_target_mem_nodesOf h) (fuelOf g)
  have hloop := dfs_list_spec hnext (g.map (fun p => p.1)) [] [] []
    (fun n hn => keys_mem_nodesOf hn)
    (by simp) (by simp)
    (ucount_nil_lt (nodesOf g))
    (fun n _ => trivial)
    (fun n _ hmem => absurd hmem (List.not_mem_nil n))
    (fun x => by simp)
    (topoOk_nil g) List.nodup_nil
  constructor
  · intro h
    rw [hdet] at h
    exact hloop.2.2.1 h
  · intro hcyc
    cases hdc : detect_cycles tasks nd with
    | true => rfl
    | false =>
      exfalso
      rw [hdet] at hdc
      obtain ⟨out2, _, _, ht2, hnd2, hkeys⟩ := hloop.2.2.2 hdc
      exact no_cycle_of_topoOk ht2 hnd2 (fun a b he => hkeys a (edge_mem_keys he)) hcyc

lemma topo_list_nil {next} {visited out : List TaskId} :
    topo_list next [] visited out = (visited, out) := rfl

lemma topo_list_cons_mem {next} {n : TaskId} {rest visited out : List TaskId}
    (h : n ∈ visited) :
    topo_list next (n :: rest) visited out = topo_list next rest visited out := by
  simp [topo_list, h]

lemma topo_list_cons_new {next} {n : TaskId} {rest visited out v1 o1 : List TaskId}
    (h : n ∉ visited) (h2 : next n visited out = (v1, o1)) :
    topo_list next (n :: rest) visited out = topo_list next rest v1 o1 := by
  simp [topo_list, h, h2]

lemma topo_list_spec {g : Graph} {U : List TaskId} {C : Nat}
    {next : TaskId → List TaskId → List TaskId → List TaskId × List TaskId}
    (hnext : TopoSpec g U C next) (hnc : ¬ GCycle g) :
    ∀ (l : List TaskId) (visited out stack : List TaskId),
      (∀ n ∈ l, n ∈ U) →
      (∀ x ∈ visited, x ∈ U) →
      (∀ x ∈ stack, x ∈ visited) →
      Ucount U visited < C →
      (∀ n ∈ l, StackChain g (n :: stack)) →
      (∀ n ∈ l, n ∈ stack → GCycle g) →
      (∀ x, x ∈ out ↔ (x ∈ visited ∧ x ∉ stack)) →
      TopoOk g out → out.Nodup →
      (∀ x ∈ visited, x ∈ (topo_list next l visited out).1) ∧
      (∀ x ∈ (topo_list next l visited out).1, x ∈ U) ∧
      (∀ x ∈ out, x ∈ (topo_list next l visited out).2) ∧
      (∀ x, x ∈ (topo_list next l visited out).2 ↔
        (x ∈ (topo_list next l visited out).1 ∧ x ∉ stack)) ∧
      TopoOk g (topo_list next l visited out).2 ∧
      (topo_list next l visited out).2.Nodup ∧
      (∀ n ∈ l, n ∈ (topo_list next l visited out).2) := by
  intro l
  induction l with
  | nil =>
    intro visited out stack _ hvU _ _ _ _ iso ht hnd
    rw [topo_list_nil]
    exact ⟨fun x hx => hx, hvU, fun x hx => hx, fun x => iso x, ht, hnd, by simp⟩
  | cons n rest ih =>
    intro visited out stack hl hvU hsv hC hch hms iso ht hnd
    by_cases hv : n ∈ visited
    · have hnstack : n ∉ stack := fun hmem => hnc (hms n (by simp) hmem)
      rw [topo_list_cons_mem hv]
      have hrec := ih visited out stack (fun m hm => hl m (List.mem_cons_of_mem _ hm))
        hvU hsv hC (fun m hm => hch m (List.mem_cons_of_mem _ hm))
        (fun m hm => hms m (List.mem_cons_of_mem _ hm)) iso ht hnd
      refine ⟨hrec.1, hrec.2.1, hrec.2.2.1, hrec.2.2.2.1, hrec.2.2.2.2.1,
        hrec.2.2.2.2.2.1, ?_⟩
      intro m hm
      rcases List.mem_cons.mp hm with rfl | hm2
      · exact hrec.2.2.1 _ ((iso m).mpr ⟨hv, hnstack⟩)
      · exact hrec.2.2.2.2.2.2 m hm2
    · rcases hnx : next n visited out with ⟨v1, o1⟩
      have hspec := hnext n visited out stack hv (hl n (by simp)) hvU hsv hC
        (hch n (by simp)) iso ht hnd hnc
      rw [hnx] at hspec
      obtain ⟨hs1, hs2, hs3, hs4, hs5, hs6, hs7⟩ := hspec
      have hnstack : n ∉ stack := fun hmem => hv (hsv n hmem)
      rw [topo_list_cons_new hv hnx]
      have hrec := ih v1 o1 stack (fun m hm => hl m (List.mem_cons_of_mem _ hm))
        hs3 (fun x hx => hs1 x (hsv x hx))
        (lt_of_le_of_lt (ucount_le_of_subset hs1) hC)
        (fun m hm => hch m (List.mem_cons_of_mem _ hm))
        (fun m hm => hms m (List.mem_cons_of_mem _ hm)) hs5 hs6 hs7
      refine ⟨fun x hx => hrec.1 x (hs1 x hx), hrec.2.1,
        fun x hx => hrec.2.2.1 x (hs4 x hx), hrec.2.2.2.1, hrec.2.2.2.2.1,
        hrec.2.2.2.2.2.1, ?_⟩
      intro m hm
      rcases List.mem_cons.mp hm with rfl | hm2
      · exact hrec.2.2.1 _ ((hs5 m).mpr ⟨hs2, hnstack⟩)
      · exact hrec.2.2.2.2.2.2 m hm2

lemma topo_visit_spec {g : Graph} {U : List TaskId}
    (hUn : ∀ x y, Edge g x y → y ∈ U) (hnc : ¬ GCycle g) :
    ∀ fuel, TopoSpec g U fuel (fun n v o => topo_visit g fuel n v o) := by
  intro fuel
  induction fuel with
  | zero =>
    intro node visited out stack _ _ _ _ hC
    exact absurd hC (Nat.not_lt_zero _)
  | succ fuel ih =>
    intro node visited out stack hnv hnU hvU hsv hC hchain iso ht hnd _
    beta_reduce
    have hnstack : node ∉ stack := fun hmem => hnv (hsv node hmem)
    rcases hrun : topo_list (fun n v o => topo_visit g fuel n v o)
        (nbrs g node) (node :: visited) out with ⟨vE, oE⟩
    have hres : topo_visit g (fuel + 1) node visited out = (vE, oE ++ [node]) := by
      simp [topo_visit, hrun]
    have hiso : ∀ x, x ∈ out ↔ (x ∈ node :: visited ∧ x ∉ node :: stack) := by
      intro x
      constructor
      · intro hx
        obtain ⟨hx1, hx2⟩ := (iso x).mp hx
        have hxne : x ≠ node := fun h => hnv (h ▸ hx1)
        exact ⟨List.mem_cons_of_mem _ hx1, by simp [hxne, hx2]⟩
      · rintro ⟨hx1, hx2⟩
        have hxne : x ≠ node := by simp at hx2; exact hx2.1
        have hx1' : x ∈ visited := by
          rcases List.mem_cons.mp hx1 with rfl | h
          · exact absurd rfl hxne
          · exact h
        have hx2' : x ∉ stack := by simp at hx2; exact hx2.2
        exact (iso x).mpr ⟨hx1', hx2'⟩
    have hloop := topo_list_spec ih hnc (nbrs g node) (node :: visited) out
      (node :: stack)
      (fun y hy => hUn node y hy)
      (fun x hx => by
        rcases List.mem_cons.mp hx with rfl | h
        · exact hnU
        · exact hvU x h)
      (fun x hx => by
        rcases List.mem_cons.mp hx with rfl | h
        · exact List.mem_cons_self _ _
        · exact List.mem_cons_of_mem _ (hsv x h))
      (by have := ucount_lt_of_cons hnU hnv; omega)
      (fun m hm => stackChain_cons hchain hm)
      (fun m hm hmem => cycle_of_stack hchain hmem hm)
      hiso ht hnd
    rw [hrun] at hloop
    obtain ⟨hc1, hc2, hc3, hc4, hc5, hc6, hc7⟩ := hloop
    have hnode_in : node ∈ vE := hc1 node (List.mem_cons_self _ _)
    have hnode_notin_oE : node ∉ oE := by
      intro hmem
      exact ((hc4 node).mp hmem).2 (List.mem_cons_self _ _)
    rw [hres]
    refine ⟨fun x hx => hc1 x (List.mem_cons_of_mem _ hx), hnode_in, hc2,
      fun x hx => List.mem_append_left _ (hc3 x hx), ?_, ?_, ?_⟩
    · intro x
      constructor
      · intro hx
        rcases List.mem_append.mp hx with hx2 | hxn
        · obtain ⟨hxa, hxb⟩ := (hc4 x).mp hx2
          exact ⟨hxa, fun h => hxb (List.mem_cons_of_mem _ h)⟩
        · have hxeq : x = node := by simpa using hxn
          subst hxeq
          exact ⟨hnode_in, hnstack⟩
      · rintro ⟨hx1, hx2⟩
        by_cases hxeq : x = node
        · subst hxeq
          exact List.mem_append_right _ (by simp)
        · refine List.mem_append_left _ ((hc4 x).mpr ⟨hx1, ?_⟩)
          simp [hxeq, hx2]
    · exact topoOk_append hc5 (fun y hy => hc7 y hy)
    · rw [List.nodup_append]
      exact ⟨hc6, List.nodup_singleton _, by simp [hnode_notin_oE]⟩

lemma topological_sort_spec (tasks : List Task)
    (hnc : ¬ GCycle (build_graph tasks)) :
    (∀ k ∈ (build_graph tasks).map (fun p => p.1), k ∈ topological_sort tasks) ∧
    TopoOk (build_graph tasks) (topological_sort tasks) ∧
    (topological_sort tasks).Nodup := by
  set g := build_graph tasks with hg
  have hdet : topological_sort tasks
      = (topo_list (fun n v o => topo_visit g (fuelOf g) n v o)
          (g.map (fun p => p.1)) [] []).2 := rfl
  have hnext := topo_visit_spec (g := g) (U := nodesOf g)
    (fun _ _ h => edge_target_mem_nodesOf h) hnc (fuelOf g)
  have hloop := topo_list_spec hnext hnc (g.map (fun p => p.1)) [] [] []
    (fun n hn => keys_mem_nodesOf hn)
    (by simp) (by simp)
    (ucount_nil_lt (nodesOf g))
    (fun n _ => trivial)
    (fun n _ hmem => absurd hmem (List.not_mem_nil n))
    (fun x => by simp)
    (topoOk_nil g) List.nodup_nil
  rw [hdet]
  exact ⟨hloop.2.2.2.2.2.2, hloop.2.2.2.2.1, hloop.2.2.2.2.2.1⟩

/-- C9: `detect_cycles` returns `true` exactly when the supplied task
graph, extended with the optional hypothetical edge, contains a directed
cycle.  The equivalence holds for arbitrary (in particular disconnected)
graphs, so every connected component is examined. -/
theorem claim_C9_detect_cycles_iff_cycle (tasks : List Task)
    (nd : Option (TaskId × TaskId)) :
    detect_cycles tasks nd = true ↔ GCycle (graph_plus (build_graph tasks) nd) :=
  detect_cycles_iff_aux tasks nd

/-- C8: on an acyclic task graph, `topological_sort` lists each task
exactly once, and every (direct or transitive) prerequisite of a task
appears strictly before it. -/
theorem claim_C8_topological_sort_correct (tasks : List Task)
    (hacyc : ¬ GCycle (build_graph tasks))
    (hids : (tasks.map (fun t => t.id)).Nodup) :
    (∀ t ∈ tasks, (topological_sort tasks).count t.id = 1) ∧
    (∀ a b, Relation.TransGen (Edge (build_graph tasks)) a b →
      ∃ i j : Nat, i < j ∧ (topological_sort tasks)[i]? = some b ∧
        (topological_sort tasks)[j]? = some a) := by
  obtain ⟨hkeys, ht, hnodup⟩ := topological_sort_spec tasks hacyc
  constructor
  · intro t hmem
    have hkey : t.id ∈ (build_graph tasks).map (fun p => p.1) := by
      unfold build_graph
      rw [List.map_map]
      exact List.mem_map.mpr ⟨t, hmem, rfl⟩
    exact List.count_eq_one_of_mem hnodup (hkeys _ hkey)
  · intro a b htg
    obtain ⟨c, hc, _⟩ := (Relation.TransGen.head'_iff).mp htg
    have hmem : a ∈ topological_sort tasks := hkeys a (edge_mem_keys hc)
    obtain ⟨j, hj⟩ := List.mem_iff_getElem?.mp hmem
    obtain ⟨i, hij, hi⟩ := topoOk_desc ht htg j hj
    exact ⟨i, j, hij, hi, hj⟩

/-- Witness for C8 at a concrete acyclic two-task graph. -/
theorem claim_C8_witness :
    ((¬ GCycle (build_graph lineTasks)) ∧ (lineTasks.map (fun t => t.id)).Nodup) ∧
    ((∀ t ∈ lineTasks, (topological_sort lineTasks).count t.id = 1) ∧
     (∀ a b, Relation.TransGen (Edge (build_graph lineTasks)) a b →
       ∃ i j : Nat, i < j ∧ (topological_sort lineTasks)[i]? = some b ∧
         (topological_sort lineTasks)[j]? = some a)) := by
  have hacyc : ¬ GCycle (build_graph lineTasks) := by
    intro hc
    have h := (detect_cycles_iff_aux lineTasks none).mpr hc
    exact absurd h (by decide)
  have hids : (lineTasks.map (fun t => t.id)).Nodup := by decide
  exact ⟨⟨hacyc, hids⟩, claim_C8_topological_sort_correct lineTasks hacyc hids⟩

/-- C7 (code bug): `topological_sort` has no error path at all; on a
cyclic graph it still returns a task-id list instead of failing with a
cycle error.  Evaluated at the two-task cycle. -/
theorem claim_C7_topological_sort_cyclic_returns_list :
    GCycle (build_graph cycTasks) ∧ topological_sort cycTasks = ["b", "a"] := by
  constructor
  · exact (detect_cycles_iff_aux cycTasks none).mp (by decide)
  · decide

/-! ## Store-level lemmas -/

lemma findTask_mem {s : DBState} {i : TaskId} {t : TaskRec}
    (h : findTask s i = some t) : t ∈ s.tasks :=
  List.mem_of_find?_eq_some h

lemma findTask_id {s : DBState} {i : TaskId} {t : TaskRec}
    (h : findTask s i = some t) : t.id = i := by
  have := List.find?_some h
  simpa using this

lemma findTask_setStatus (s : DBState) (i st j) :
    findTask (setStatus s i st) j
      = (findTask s j).map (fun t => if t.id = i then { t with status := st } else t) := by
  unfold findTask setStatus
  rw [List.find?_map]
  have hp : ((fun t : TaskRec => decide (t.id = j)) ∘
      (fun t : TaskRec => if t.id = i then { t with status := st } else t))
      = fun t : TaskRec => decide (t.id = j) := by
    funext t
    by_cases h : t.id = i <;> simp [Function.comp, h]
  rw [hp]

lemma statusOf_setStatus_self {s : DBState} {i : TaskId} {t : TaskRec} (st : TaskStatus)
    (h : findTask s i = some t) :
    statusOf (setStatus s i st) i = some st := by
  unfold statusOf
  rw [findTask_setStatus, h]
  simp [findTask_id h]

lemma statusOf_setStatus_other {s : DBState} {i j : TaskId} (st : TaskStatus)
    (h : j ≠ i) :
    statusOf (setStatus s i st) j = statusOf s j := by
  unfold statusOf
  rw [findTask_setStatus]
  cases hf : findTask s j with
  | none => rfl
  | some t =>
    have hid : t.id = j := findTask_id hf
    simp [hid, h]

lemma try_unblock_cases (s : DBState) (i : TaskId) :
    try_unblock_task s i = (true, setStatus s i TaskStatus.not_started)
    ∨ try_unblock_task s i = (false, s) := by
  by_cases hc : (s.deps.filter (fun d => decide (d.1 = i))).all (fun d =>
      match findTask s d.2 with
      | some blocker => decide (blocker.status = TaskStatus.completed)
      | none => true) = true
  · left
    simp [try_unblock_task, hc]
  · right
    simp [try_unblock_task, hc]

lemma add_ok_cases {s : DBState} {bk bd : TaskId} {r : AddOk} {s2 : DBState}
    (h : add_dependency s bk bd = (Except.ok r, s2)) :
    ∃ blocker blocked, bk ≠ bd ∧ findTask s bk = some blocker ∧
      findTask s bd = some blocked ∧
      s.deps.any (fun d => decide (d.1 = bd) && decide (d.2 = bk)) = false ∧
      detect_cycles ((s.tasks.filter
        (fun t => decide (t.projectId = blocked.projectId))).map (loadTask s))
        (some (bd, bk)) = false ∧
      ((blocker.status = TaskStatus.completed ∧ r = ⟨bk, bd, blocked.status⟩ ∧
          s2 = { s with deps := s.deps ++ [(bd, bk)] }) ∨
       (blocker.status ≠ TaskStatus.completed ∧ r = ⟨bk, bd, TaskStatus.blocked⟩ ∧
          s2 = setStatus { s with deps := s.deps ++ [(bd, bk)] } bd TaskStatus.blocked)) := by
  unfold add_dependency at h
  split at h
  · simp at h
  next hne =>
    rcases hbk : findTask s bk with _ | blocker <;> rw [hbk] at h
    · simp at h
    rcases hbd : findTask s bd with _ | blocked <;> rw [hbd] at h
    · simp at h
    rcases hdup : s.deps.any (fun d => decide (d.1 = bd) && decide (d.2 = bk)) <;>
      rw [hdup] at h <;> simp only [Bool.false_eq_true, if_false, if_true] at h
    case false =>
      rcases hdc : detect_cycles ((s.tasks.filter
          (fun t => decide (t.projectId = blocked.projectId))).map (loadTask s))
          (some (bd, bk)) <;> rw [hdc] at h <;>
        simp only [Bool.false_eq_true, if_false, if_true] at h
      case false =>
        refine ⟨blocker, blocked, hne, rfl, rfl, rfl, hdc, ?_⟩
        split at h
        next hcomp =>
          have h1 := congrArg Prod.fst h
          have h2 := congrArg Prod.snd h
          injection h1 with h3
          exact Or.inl ⟨hcomp, h3.symm, h2.symm⟩
        next hcomp =>
          have h1 := congrArg Prod.fst h
          have h2 := congrArg Prod.snd h
          injection h1 with h3
          exact Or.inr ⟨hcomp, h3.symm, h2.symm⟩
      case true =>
        simp at h
    case true =>
      simp at h

lemma add_dependency_error_state {s : DBState} {bk bd : TaskId} {e : CallErr}
    {s2 : DBState} (h : add_dependency s bk bd = (Except.error e, s2)) : s2 = s := by
  unfold add_dependency at h
  split at h
  · exact (congrArg Prod.snd h).symm
  next =>
    rcases hbk : findTask s bk with _ | blocker <;> rw [hbk] at h
    · exact (congrArg Prod.snd h).symm
    rcases hbd : findTask s bd with _ | blocked <;> rw [hbd] at h
    · exact (congrArg Prod.snd h).symm
    rcases hdup : s.deps.any (fun d => decide (d.1 = bd) && decide (d.2 = bk)) <;>
      rw [hdup] at h <;> simp only [Bool.false_eq_true, if_false, if_true] at h
    case true =>
      exact (congrArg Prod.snd h).symm
    case false =>
      rcases hdc : detect_cycles ((s.tasks.filter
          (fun t => decide (t.projectId = blocked.projectId))).map (loadTask s))
          (some (bd, bk)) <;> rw [hdc] at h <;>
        simp only [Bool.false_eq_true, if_false, if_true] at h
      case true =>
        exact (congrArg Prod.snd h).symm
      case false =>
        split at h <;> simp at h

/-- Evaluated form of `try_unblock_task` with the intermediate binding
unfolded. -/
lemma try_unblock_run (s : DBState) (i : TaskId) :
    try_unblock_task s i
      = if ((s.deps.filter (fun d => decide (d.1 = i))).all (fun d =>
            match findTask s d.2 with
            | some blocker => decide (blocker.status = TaskStatus.completed)
            | none => true)) = true
        then (true, setStatus s i TaskStatus.not_started)
        else (false, s) := rfl

/-- C2: on every successful `add_dependency`, the returned value carries the
blocked task's resulting status; if the blocker is not completed the blocked
task is forced to Blocked (whatever its previous status), and if the blocker
is completed the blocked task's status is untouched. -/
theorem claim_C2_add_dependency_forces_blocked (s : DBState) (bk bd : TaskId)
    (r : AddOk) (s2 : DBState)
    (h : add_dependency s bk bd = (Except.ok r, s2)) :
    some r.blocked_status = statusOf s2 bd ∧
    (statusOf s bk ≠ some TaskStatus.completed →
      statusOf s2 bd = some TaskStatus.blocked) ∧
    (statusOf s bk = some TaskStatus.completed →
      statusOf s2 bd = statusOf s bd) := by
  obtain ⟨blocker, blocked, hne, hbk, hbd, _, _, hcase⟩ := add_ok_cases h
  have hsbk : statusOf s bk = some blocker.status := by
    unfold statusOf
    rw [hbk]
    rfl
  have hsbd : statusOf s bd = some blocked.status := by
    unfold statusOf
    rw [hbd]
    rfl
  rcases hcase with ⟨hst, hr, hs2⟩ | ⟨hst, hr, hs2⟩
  · subst hs2
    subst hr
    have heq : statusOf { s with deps := s.deps ++ [(bd, bk)] } bd = statusOf s bd := rfl
    refine ⟨by rw [heq, hsbd], ?_, fun _ => heq⟩
    intro hne2
    exact absurd (by rw [hsbk, hst]) hne2
  · subst hs2
    subst hr
    have hbd1 : findTask { s with deps := s.deps ++ [(bd, bk)] } bd = some blocked := hbd
    have hset : statusOf (setStatus { s with deps := s.deps ++ [(bd, bk)] } bd
        TaskStatus.blocked) bd = some TaskStatus.blocked :=
      statusOf_setStatus_self _ hbd1
    refine ⟨by rw [hset], fun _ => hset, ?_⟩
    intro hcomp
    rw [hsbk] at hcomp
    injection hcomp with hcomp2
    exact absurd hcomp2 hst

/-- Witness for C2 at a concrete successful call (`b` starts depending on
the incomplete `a` and gets blocked). -/
theorem claim_C2_witness :
    some (AddOk.mk "a" "b" TaskStatus.blocked).blocked_status
        = statusOf (add_dependency dbTwo "a" "b").2 "b" ∧
    (statusOf dbTwo "a" ≠ some TaskStatus.completed →
      statusOf (add_dependency dbTwo "a" "b").2 "b" = some TaskStatus.blocked) ∧
    (statusOf dbTwo "a" = some TaskStatus.completed →
      statusOf (add_dependency dbTwo "a" "b").2 "b" = statusOf dbTwo "b") :=
  claim_C2_add_dependency_forces_blocked dbTwo "a" "b" _ _ rfl

/-- C6 (amended): `add_dependency(A, A)` always fails and never mutates the
state, but the error kind it reports is `cycle_detected` — the same kind as
a genuine cycle rejection — distinguished only by its message. -/
theorem claim_C6_self_dependency (s : DBState) (a : TaskId) :
    add_dependency s a a
      = (Except.error { error := "cycle_detected",
                        message := some "Task cannot depend on itself" }, s) := by
  unfold add_dependency
  simp

/-- Counterexample for C6 as stated: the self-dependency error kind is not
distinct from the cycle-detection error kind — both calls below report the
kind `cycle_detected`. -/
theorem claim_C6_counterexample :
    (add_dependency dbLine "c" "c").1
        = Except.error { error := "cycle_detected",
                         message := some "Task cannot depend on itself" } ∧
    (add_dependency dbLine "a" "b").1
        = Except.error { error := "cycle_detected",
                         message := some "Adding this dependency would create a circular reference" } :=
  ⟨rfl, rfl⟩

/-- C5 (amended): for an existing task, `validate_status_change` rejects
exactly when the task is currently Blocked and the proposed status is
InProgress or Completed — regardless of whether the blockers are complete;
the rejection reason lists the incomplete blockers (possibly none). -/
theorem claim_C5_validate_status_change (s : DBState) (taskId : TaskId)
    (newStatus : TaskStatus) (task : TaskRec) (h : findTask s taskId = some task) :
    ((validate_status_change s taskId newStatus).1 = false ↔
      (task.status = TaskStatus.blocked ∧
        (newStatus = TaskStatus.in_progress ∨ newStatus = TaskStatus.completed))) ∧
    ((validate_status_change s taskId newStatus).1 = false →
      (validate_status_change s taskId newStatus).2
        = some ("Cannot proceed: blocked by " ++ String.intercalate ", "
            ((((s.deps.filter (fun d => decide (d.1 = taskId))).filterMap
                (fun d => findTask s d.2)).filter
              (fun b => decide (¬ b.status = TaskStatus.completed))).map
                (fun b => b.name)))) := by
  simp only [validate_status_change, h]
  split
  next hcond =>
    refine ⟨by simp [hcond], fun _ => rfl⟩
  next hcond =>
    constructor
    · constructor
      · intro hfalse
        simp at hfalse
      · intro hcontr
        exact absurd hcontr hcond
    · intro hfalse
      simp at hfalse

/-- Witness for C5 at a concrete Blocked task with an incomplete blocker. -/
theorem claim_C5_witness :
    (validate_status_change dbBlocked "b" TaskStatus.in_progress).1 = false :=
  (claim_C5_validate_status_change dbBlocked "b" TaskStatus.in_progress
    ⟨"b", "B", TaskStatus.blocked, "p"⟩ rfl).1.mpr ⟨rfl, Or.inl rfl⟩

/-- Counterexample for C5 as stated: task `b` is Blocked but its only
blocker `a` is already Completed; the claim says the change to InProgress
is allowed, yet the code rejects it (with an empty blocker list). -/
theorem claim_C5_counterexample :
    statusOf dbReady "b" = some TaskStatus.blocked ∧
    dbReady.deps = [("b", "a")] ∧
    statusOf dbReady "a" = some TaskStatus.completed ∧
    (validate_status_change dbReady "b" TaskStatus.in_progress).1 = false ∧
    (validate_status_change dbReady "b" TaskStatus.in_progress).2
      = some "Cannot proceed: blocked by " :=
  ⟨rfl, rfl, rfl, rfl, rfl⟩

/-- C3: `_try_unblock_task` returns false (and changes nothing) exactly when
some dependency row resolves to an existing blocker that is not Completed;
otherwise it sets the task's status to NotStarted — never to InProgress or
Completed — and returns true. -/
theorem claim_C3_try_unblock (s : DBState) (taskId : TaskId) :
    ((try_unblock_task s taskId).1 = false ↔
      ∃ d ∈ s.deps, d.1 = taskId ∧
        ∃ b, findTask s d.2 = some b ∧ ¬ b.status = TaskStatus.completed) ∧
    ((try_unblock_task s taskId).1 = false → (try_unblock_task s taskId).2 = s) ∧
    ((try_unblock_task s taskId).1 = true →
      (try_unblock_task s taskId).2 = setStatus s taskId TaskStatus.not_started ∧
      ∀ t, findTask s taskId = some t →
        statusOf (try_unblock_task s taskId).2 taskId = some TaskStatus.not_started) := by
  by_cases hc : ((s.deps.filter (fun d => decide (d.1 = taskId))).all (fun d =>
      match findTask s d.2 with
      | some blocker => decide (blocker.status = TaskStatus.completed)
      | none => true)) = true
  · rw [try_unblock_run s taskId, if_pos hc]
    refine ⟨?_, ?_, ?_⟩
    · constructor
      · intro hfalse
        simp at hfalse
      · rintro ⟨d, hd, hd1, b, hb, hbc⟩
        have hdf : d ∈ s.deps.filter (fun d => decide (d.1 = taskId)) :=
          List.mem_filter.mpr ⟨hd, by simp [hd1]⟩
        have := List.all_eq_true.mp hc d hdf
        rw [hb] at this
        simp at this
        exact absurd this hbc
    · intro hfalse
      simp at hfalse
    · intro _
      exact ⟨rfl, fun t ht => statusOf_setStatus_self _ ht⟩
  · rw [try_unblock_run s taskId, if_neg hc]
    refine ⟨?_, fun _ => rfl, ?_⟩
    · constructor
      · intro _
        have hall : ¬ ∀ d ∈ s.deps.filter (fun d => decide (d.1 = taskId)),
            (fun d => match findTask s d.2 with
              | some blocker => decide (blocker.status = TaskStatus.completed)
              | none => true) d = true := fun hforall => hc (List.all_eq_true.mpr hforall)
        push_neg at hall
        obtain ⟨d, hdf, hdp⟩ := hall
        obtain ⟨hd, hd1⟩ := List.mem_filter.mp hdf
        refine ⟨d, hd, by simpa using hd1, ?_⟩
        rcases hfind : findTask s d.2 with _ | b <;> rw [hfind] at hdp
        · simp at hdp
        · refine ⟨b, rfl, ?_⟩
          intro hbc
          exact hdp (by simp [hbc])
      · intro _
        rfl
    · intro htrue
      simp at htrue

/-- Witness for C3: `b` stays blocked while `a` is in progress, and is
released to NotStarted once every blocker is complete. -/
theorem claim_C3_witness :
    (try_unblock_task dbBlocked "b").1 = false ∧
    (try_unblock_task dbBlocked "b").2 = dbBlocked ∧
    (try_unblock_task dbReady "b").1 = true ∧
    statusOf (try_unblock_task dbReady "b").2 "b" = some TaskStatus.not_started := by
  have h1 := claim_C3_try_unblock dbBlocked "b"
  have h2 := claim_C3_try_unblock dbReady "b"
  exact ⟨by decide, h1.2.1 (by decide), by decide,
    (h2.2.2 (by decide)).2 ⟨"b", "B", TaskStatus.blocked, "p"⟩ rfl⟩

/-- C10: a dependency row whose blocker id has no task record is treated as
satisfied by `_try_unblock_task` (the task is released to NotStarted when
every existing blocker is Completed), while `get_blocked_tasks` treats the
same dangling reference as an incomplete blocker and still reports the task
as blocked. -/
theorem claim_C10_dangling_blockers (s : DBState) (taskId : TaskId)
    (t : TaskRec) (dangling : TaskId)
    (ht : findTask s taskId = some t)
    (hne : ¬ t.status = TaskStatus.completed)
    (hdmem : (taskId, dangling) ∈ s.deps)
    (hdnone : findTask s dangling = none)
    (hcomp : ∀ d ∈ s.deps, d.1 = taskId →
      (findTask s d.2 = none ∨ statusOf s d.2 = some TaskStatus.completed)) :
    try_unblock_task s taskId = (true, setStatus s taskId TaskStatus.not_started) ∧
    statusOf (try_unblock_task s taskId).2 taskId = some TaskStatus.not_started ∧
    taskId ∈ get_blocked_tasks (s.tasks.map (loadTask s)) := by
  have hidt : t.id = taskId := findTask_id ht
  have hcond : ((s.deps.filter (fun d => decide (d.1 = taskId))).all (fun d =>
      match findTask s d.2 with
      | some blocker => decide (blocker.status = TaskStatus.completed)
      | none => true)) = true := by
    apply List.all_eq_true.mpr
    intro d hd
    obtain ⟨hmem, hp⟩ := List.mem_filter.mp hd
    have hd1 : d.1 = taskId := by simpa using hp
    rcases hcomp d hmem hd1 with hnone | hdone
    · rw [hnone]
    · rcases hfd : findTask s d.2 with _ | b
      · rfl
      · unfold statusOf at hdone
        rw [hfd] at hdone
        simp at hdone
        simp [hdone]
  have hrun : try_unblock_task s taskId
      = (true, setStatus s taskId TaskStatus.not_started) := by
    rw [try_unblock_run s taskId, if_pos hcond]
  refine ⟨hrun, by rw [hrun]; exact statusOf_setStatus_self _ ht, ?_⟩
  unfold get_blocked_tasks
  have hfun : ((fun u : Task => decide (u.id = dangling)) ∘ loadTask s)
      = fun u : TaskRec => decide (u.id = dangling) := rfl
  have hdangfind : (s.tasks.map (loadTask s)).find?
      (fun u => decide (u.id = dangling)) = none := by
    rw [List.find?_map, hfun]
    have : s.tasks.find? (fun u : TaskRec => decide (u.id = dangling)) = none := hdnone
    rw [this]
    rfl
  refine List.mem_map.mpr ⟨loadTask s t, ?_, hidt⟩
  refine List.mem_filter.mpr ⟨List.mem_map.mpr ⟨t, findTask_mem ht, rfl⟩, ?_⟩
  rw [Bool.and_eq_true]
  constructor
  · exact decide_eq_true hne
  · apply List.any_eq_true.mpr
    refine ⟨dangling, ?_, ?_⟩
    · show dangling ∈ (s.deps.filter (fun d => decide (d.1 = t.id))).map (fun d => d.2)
      refine List.mem_map.mpr ⟨(taskId, dangling), ?_, rfl⟩
      exact List.mem_filter.mpr ⟨hdmem, by simp [hidt]⟩
    · rw [hdangfind]
      rfl

/-- Witness for C10 at a concrete store with a dangling blocker id. -/
theorem claim_C10_witness :
    try_unblock_task dbGhost "b" = (true, setStatus dbGhost "b" TaskStatus.not_started) ∧
    statusOf (try_unblock_task dbGhost "b").2 "b" = some TaskStatus.not_started ∧
    "b" ∈ get_blocked_tasks (dbGhost.tasks.map (loadTask dbGhost)) :=
  claim_C10_dangling_blockers dbGhost "b" ⟨"b", "B", TaskStatus.blocked, "p"⟩ "ghost"
    rfl (by decide) (by decide) rfl (by decide)

/-! ## Downstream-propagation loop -/

lemma uds_loop_nil (s : DBState) (acc : List UnblockedInfo) :
    uds_loop [] s acc = (s, acc) := rfl

lemma uds_loop_cons_none {s : DBState} {dep : TaskId × TaskId}
    {rest : List (TaskId × TaskId)} {acc : List UnblockedInfo}
    (h : findTask s dep.1 = none) :
    uds_loop (dep :: rest) s acc = uds_loop rest s acc := by
  simp [uds_loop, h]

lemma uds_loop_cons_notblocked {s : DBState} {dep : TaskId × TaskId}
    {rest : List (TaskId × TaskId)} {acc : List UnblockedInfo} {t : TaskRec}
    (h : findTask s dep.1 = some t) (h2 : ¬ t.status = TaskStatus.blocked) :
    uds_loop (dep :: rest) s acc = uds_loop rest s acc := by
  simp [uds_loop, h, h2]

lemma uds_loop_cons_true {s s1 : DBState} {dep : TaskId × TaskId}
    {rest : List (TaskId × TaskId)} {acc : List UnblockedInfo} {t : TaskRec}
    (h : findTask s dep.1 = some t) (h2 : t.status = TaskStatus.blocked)
    (h3 : try_unblock_task s dep.1 = (true, s1)) :
    uds_loop (dep :: rest) s acc
      = uds_loop rest s1 (acc ++ [unblockedEntry t]) := by
  simp [uds_loop, unblockedEntry, h, h2, h3]

lemma uds_loop_cons_false {s s1 : DBState} {dep : TaskId × TaskId}
    {rest : List (TaskId × TaskId)} {acc : List UnblockedInfo} {t : TaskRec}
    (h : findTask s dep.1 = some t) (h2 : t.status = TaskStatus.blocked)
    (h3 : try_unblock_task s dep.1 = (false, s1)) :
    uds_loop (dep :: rest) s acc = uds_loop rest s1 acc := by
  simp [uds_loop, h, h2, h3]

lemma uds_loop_spec :
    ∀ (rows : List (TaskId × TaskId)) (s : DBState) (acc : List UnblockedInfo),
      (uds_loop rows s acc).1.deps = s.deps ∧
      ∃ suff, (uds_loop rows s acc).2 = acc ++ suff ∧
        (∀ i ∈ suff, i.id ∈ rows.map (fun d => d.1) ∧
          statusOf s i.id = some TaskStatus.blocked ∧
          statusOf (uds_loop rows s acc).1 i.id = some TaskStatus.not_started ∧
          i.new_status = "not_started") ∧
        (∀ x, statusOf (uds_loop rows s acc).1 x = statusOf s x ∨
          (statusOf s x = some TaskStatus.blocked ∧
           statusOf (uds_loop rows s acc).1 x = some TaskStatus.not_started ∧
           x ∈ rows.map (fun d => d.1) ∧ ∃ i ∈ suff, i.id = x)) := by
  intro rows
  induction rows with
  | nil =>
    intro s acc
    rw [uds_loop_nil]
    exact ⟨rfl, [], by simp, by simp, fun x => Or.inl rfl⟩
  | cons dep rest ih =>
    intro s acc
    rcases hf : findTask s dep.1 with _ | t
    · rw [uds_loop_cons_none hf]
      obtain ⟨hd, suff, heq, hP, hQ⟩ := ih s acc
      refine ⟨hd, suff, heq, ?_, ?_⟩
      · intro i hi
        obtain ⟨p1, p2, p3, p4⟩ := hP i hi
        exact ⟨List.mem_cons_of_mem _ p1, p2, p3, p4⟩
      · intro x
        rcases hQ x with h | ⟨q1, q2, q3, q4⟩
        · exact Or.inl h
        · exact Or.inr ⟨q1, q2, List.mem_cons_of_mem _ q3, q4⟩
    · by_cases hb : t.status = TaskStatus.blocked
      · rcases try_unblock_cases s dep.1 with htc | htc
        · rw [uds_loop_cons_true hf hb htc]
          have hidt : t.id = dep.1 := findTask_id hf
          have hst_s : statusOf s dep.1 = some TaskStatus.blocked := by
            unfold statusOf
            rw [hf]
            simp [hb]
          have hst_s1 : statusOf (setStatus s dep.1 TaskStatus.not_started) dep.1
              = some TaskStatus.not_started := statusOf_setStatus_self _ hf
          have hother : ∀ x, x ≠ dep.1 →
              statusOf (setStatus s dep.1 TaskStatus.not_started) x = statusOf s x :=
            fun x hx => statusOf_setStatus_other _ hx
          obtain ⟨hd, suff, heq, hP, hQ⟩ :=
            ih (setStatus s dep.1 TaskStatus.not_started) (acc ++ [unblockedEntry t])
          have hfinal_dep : statusOf (uds_loop rest (setStatus s dep.1 TaskStatus.not_started)
              (acc ++ [unblockedEntry t])).1 dep.1
              = some TaskStatus.not_started := by
            rcases hQ dep.1 with h | ⟨_, h2, _, _⟩
            · rw [h, hst_s1]
            · exact h2
          refine ⟨hd, unblockedEntry t :: suff, by rw [heq]; simp, ?_, ?_⟩
          · intro i hi
            rcases List.mem_cons.mp hi with rfl | hi2
            · refine ⟨by simp [unblockedEntry, hidt], ?_, ?_, rfl⟩
              · show statusOf s t.id = some TaskStatus.blocked
                rw [hidt]
                exact hst_s
              · show statusOf (uds_loop rest (setStatus s dep.1 TaskStatus.not_started)
                    (acc ++ [unblockedEntry t])).1 t.id = some TaskStatus.not_started
                rw [hidt]
                exact hfinal_dep
            · obtain ⟨p1, p2, p3, p4⟩ := hP i hi2
              by_cases hx : i.id = dep.1
              · exact ⟨by simp [hx], by rw [hx]; exact hst_s, p3, p4⟩
              · refine ⟨List.mem_cons_of_mem _ p1, ?_, p3, p4⟩
                rw [← hother i.id hx]
                exact p2
          · intro x
            by_cases hx : x = dep.1
            · subst hx
              refine Or.inr ⟨hst_s, hfinal_dep, by simp, ?_⟩
              exact ⟨unblockedEntry t, List.mem_cons_self _ _, hidt⟩
            · rcases hQ x with h | ⟨q1, q2, q3, q4⟩
              · exact Or.inl (by rw [h]; exact hother x hx)
              · refine Or.inr ⟨by rw [← hother x hx]; exact q1, q2,
                  List.mem_cons_of_mem _ q3, ?_⟩
                obtain ⟨i, hi, hix⟩ := q4
                exact ⟨i, List.mem_cons_of_mem _ hi, hix⟩
        · rw [uds_loop_cons_false hf hb htc]
          obtain ⟨hd, suff, heq, hP, hQ⟩ := ih s acc
          refine ⟨hd, suff, heq, ?_, ?_⟩
          · intro i hi
            obtain ⟨p1, p2, p3, p4⟩ := hP i hi
            exact ⟨List.mem_cons_of_mem _ p1, p2, p3, p4⟩
          · intro x
            rcases hQ x with h | ⟨q1, q2, q3, q4⟩
            · exact Or.inl h
            · exact Or.inr ⟨q1, q2, List.mem_cons_of_mem _ q3, q4⟩
      · rw [uds_loop_cons_notblocked hf hb]
        obtain ⟨hd, suff, heq, hP, hQ⟩ := ih s acc
        refine ⟨hd, suff, heq, ?_, ?_⟩
        · intro i hi
          obtain ⟨p1, p2, p3, p4⟩ := hP i hi
          exact ⟨List.mem_cons_of_mem _ p1, p2, p3, p4⟩
        · intro x
          rcases hQ x with h | ⟨q1, q2, q3, q4⟩
          · exact Or.inl h
          · exact Or.inr ⟨q1, q2, List.mem_cons_of_mem _ q3, q4⟩

/-- C4: `update_downstream_status` reports exactly the direct dependents of
the completed task that transitioned from Blocked to NotStarted; no task
that is not a direct Blocked dependent changes status (one-level
propagation only), and the returned count matches the list. -/
theorem claim_C4_update_downstream_status (s : DBState) (cid : TaskId) :
    (∀ i ∈ (update_downstream_status s cid).1.unblocked_tasks,
        (i.id, cid) ∈ s.deps ∧ statusOf s i.id = some TaskStatus.blocked ∧
        statusOf (update_downstream_status s cid).2 i.id
          = some TaskStatus.not_started ∧
        i.new_status = "not_started") ∧
    (∀ x, ¬ statusOf (update_downstream_status s cid).2 x = statusOf s x →
        ((x, cid) ∈ s.deps ∧ statusOf s x = some TaskStatus.blocked ∧
         statusOf (update_downstream_status s cid).2 x = some TaskStatus.not_started ∧
         ∃ i ∈ (update_downstream_status s cid).1.unblocked_tasks, i.id = x)) ∧
    (update_downstream_status s cid).1.unblocked_count
      = (update_downstream_status s cid).1.unblocked_tasks.length ∧
    (update_downstream_status s cid).2.deps = s.deps ∧
    (update_downstream_status s cid).1.completed_task_id = cid := by
  have hmemrow : ∀ a, a ∈ (s.deps.filter (fun d => decide (d.2 = cid))).map
      (fun d => d.1) → (a, cid) ∈ s.deps := by
    intro a ha
    obtain ⟨d, hd, hda⟩ := List.mem_map.mp ha
    obtain ⟨hdm, hdp⟩ := List.mem_filter.mp hd
    have hd2 : d.2 = cid := by simpa using hdp
    have : (a, cid) = d := Prod.ext hda.symm hd2.symm
    rw [this]
    exact hdm
  have hru : update_downstream_status s cid
      = ({ completed_task_id := cid,
           unblocked_count := (uds_loop (s.deps.filter (fun d => decide (d.2 = cid))) s []).2.length,
           unblocked_tasks := (uds_loop (s.deps.filter (fun d => decide (d.2 = cid))) s []).2 },
         (uds_loop (s.deps.filter (fun d => decide (d.2 = cid))) s []).1) := rfl
  obtain ⟨hd, suff, heq, hP, hQ⟩ :=
    uds_loop_spec (s.deps.filter (fun d => decide (d.2 = cid))) s []
  have hsuff : (uds_loop (s.deps.filter (fun d => decide (d.2 = cid))) s []).2 = suff := by
    rw [heq]
    simp
  rw [hru]
  refine ⟨?_, ?_, rfl, hd, rfl⟩
  · intro i hi
    simp only [hsuff] at hi
    obtain ⟨p1, p2, p3, p4⟩ := hP i hi
    exact ⟨hmemrow _ p1, p2, p3, p4⟩
  · intro x hx
    rcases hQ x with h | ⟨q1, q2, q3, q4⟩
    · exact absurd h hx
    · refine ⟨hmemrow _ q3, q1, q2, ?_⟩
      obtain ⟨i, hi, hix⟩ := q4
      exact ⟨i, by rw [hsuff]; exact hi, hix⟩

/-- Witness for C4: completing `a` unblocks its direct dependent `b`. -/
theorem claim_C4_witness :
    (("b", "a") ∈ dbReady.deps ∧ statusOf dbReady "b" = some TaskStatus.blocked ∧
      statusOf (update_downstream_status dbReady "a").2 "b"
        = some TaskStatus.not_started ∧
      (UnblockedInfo.mk "b" "B" "not_started").new_status = "not_started") ∧
    (update_downstream_status dbReady "a").1.unblocked_count
      = (update_downstream_status dbReady "a").1.unblocked_tasks.length := by
  have h := claim_C4_update_downstream_status dbReady "a"
  have hm := h.1 ⟨"b", "B", "not_started"⟩ (by decide)
  exact ⟨⟨hm.1, hm.2.1, hm.2.2.1, hm.2.2.2⟩, h.2.2.1⟩

/-! ## Acyclicity invariant -/

lemma not_depCycle_nil : ¬ DepCycle ([] : List (TaskId × TaskId)) := by
  rintro ⟨n, hn⟩
  obtain ⟨c, hc, _⟩ := Relation.TransGen.head'_iff.mp hn
  simp at hc

lemma depCycle_mono {l1 l2 : List (TaskId × TaskId)} (h : ∀ d ∈ l1, d ∈ l2) :
    DepCycle l1 → DepCycle l2 := by
  rintro ⟨n, hn⟩
  exact ⟨n, Relation.TransGen.mono (fun a b hab => h (a, b) hab) hn⟩

lemma gcycle_iff_depcycle {g : Graph} {l : List (TaskId × TaskId)}
    (h : ∀ a b, Edge g a b ↔ (a, b) ∈ l) : GCycle g ↔ DepCycle l := by
  constructor
  · rintro ⟨n, hn⟩
    exact ⟨n, Relation.TransGen.mono (fun a b hab => (h a b).mp hab) hn⟩
  · rintro ⟨n, hn⟩
    exact ⟨n, Relation.TransGen.mono (fun a b hab => (h a b).mpr hab) hn⟩

lemma oneProject_setStatus {p : String} {s : DBState} {i : TaskId} {st : TaskStatus}
    (h : OneProject p s) : OneProject p (setStatus s i st) := by
  intro t ht
  obtain ⟨u, hu, rfl⟩ := List.mem_map.mp ht
  by_cases hid : u.id = i <;> simp only [hid, if_pos, if_neg, not_false_iff] <;>
    first
      | exact h u hu
      | (split <;> exact h u hu)

lemma exists_id_setStatus {s : DBState} {i a : TaskId} {st : TaskStatus}
    (h : ∃ t ∈ s.tasks, t.id = a) : ∃ t ∈ (setStatus s i st).tasks, t.id = a := by
  obtain ⟨t, ht, hid⟩ := h
  refine ⟨if t.id = i then { t with status := st } else t,
    List.mem_map.mpr ⟨t, ht, rfl⟩, ?_⟩
  split <;> exact hid

lemma nbrs_build_map (s : DBState) (a : TaskId) :
    nbrs (build_graph (s.tasks.map (loadTask s))) a
      = match findTask s a with
        | some t => (s.deps.filter (fun d => decide (d.1 = t.id))).map (fun d => d.2)
        | none => [] := by
  unfold nbrs build_graph findTask
  rw [List.map_map, List.find?_map]
  have hfun : ((fun p : TaskId × List TaskId => decide (p.1 = a)) ∘
      ((fun t : Task => (t.id, t.deps)) ∘ loadTask s))
      = fun t : TaskRec => decide (t.id = a) := rfl
  rw [hfun]
  rcases hft : s.tasks.find? (fun t : TaskRec => decide (t.id = a)) with _ | t
  · rfl
  · rfl

lemma nbrs_add_edge {g : Graph} {bd bk : TaskId}
    (hkey : g.any (fun p => decide (p.1 = bd)) = true) (a : TaskId) :
    nbrs (add_edge g bd bk) a = nbrs g a ++ (if a = bd then [bk] else []) := by
  unfold add_edge
  rw [if_pos hkey]
  unfold nbrs
  rw [List.find?_map]
  have hfun : ((fun p : TaskId × List TaskId => decide (p.1 = a)) ∘
      (fun p : TaskId × List TaskId => if p.1 = bd then (p.1, p.2 ++ [bk]) else p))
      = fun p : TaskId × List TaskId => decide (p.1 = a) := by
    funext q
    by_cases hq : q.1 = bd <;> simp [Function.comp, hq]
  rw [hfun]
  rcases hft : g.find? (fun p : TaskId × List TaskId => decide (p.1 = a)) with _ | q
  · by_cases hab : a = bd
    · subst hab
      exfalso
      obtain ⟨pn, hpn, hpp⟩ := List.any_eq_true.mp hkey
      have hsome : (g.find? fun p : TaskId × List TaskId => decide (p.1 = a)).isSome :=
        List.find?_isSome.mpr ⟨pn, hpn, hpp⟩
      rw [hft] at hsome
      simp at hsome
    · simp [hab]
  · have hq1 : q.1 = a := by simpa using List.find?_some hft
    by_cases hab : a = bd
    · subst hab
      simp [hq1]
    · have hqbd : ¬ q.1 = bd := by rw [hq1]; exact hab
      simp [hqbd, hab]

lemma mem_rows_iff (s : DBState) (a b : TaskId) :
    b ∈ (s.deps.filter (fun d => decide (d.1 = a))).map (fun d => d.2)
      ↔ (a, b) ∈ s.deps := by
  constructor
  · intro h
    obtain ⟨d, hd, hdb⟩ := List.mem_map.mp h
    obtain ⟨hdm, hdp⟩ := List.mem_filter.mp hd
    have hd1 : d.1 = a := by simpa using hdp
    have hpair : (a, b) = d := Prod.ext hd1.symm hdb.symm
    rw [hpair]
    exact hdm
  · intro h
    exact List.mem_map.mpr ⟨(a, b), List.mem_filter.mpr ⟨h, by simp⟩, rfl⟩

lemma edge_loaded_iff (s : DBState) (p : String) (bd bk : TaskId) (blocked : TaskRec)
    (h1 : OneProject p s) (h2 : ClosedDeps s) (hbd : findTask s bd = some blocked) :
    ∀ a b, Edge (graph_plus (build_graph ((s.tasks.filter
        (fun t => decide (t.projectId = blocked.projectId))).map (loadTask s)))
        (some (bd, bk))) a b
      ↔ (a, b) ∈ s.deps ++ [(bd, bk)] := by
  have hfilter : s.tasks.filter (fun t => decide (t.projectId = blocked.projectId))
      = s.tasks := by
    apply List.filter_eq_self.mpr
    intro t ht
    have hbp : blocked.projectId = p := h1 blocked (findTask_mem hbd)
    simp [h1 t ht, hbp]
  rw [hfilter]
  have hkey : (build_graph (s.tasks.map (loadTask s))).any
      (fun q => decide (q.1 = bd)) = true := by
    apply List.any_eq_true.mpr
    unfold build_graph
    rw [List.map_map]
    refine ⟨((fun t : Task => (t.id, t.deps)) ∘ loadTask s) blocked,
      List.mem_map.mpr ⟨blocked, findTask_mem hbd, rfl⟩, ?_⟩
    simp [Function.comp, loadTask, findTask_id hbd]
  intro a b
  show b ∈ nbrs (add_edge (build_graph (s.tasks.map (loadTask s))) bd bk) a ↔ _
  rw [nbrs_add_edge hkey a, nbrs_build_map]
  constructor
  · intro hmem
    rcases List.mem_append.mp hmem with hin | hif
    · rcases hft : findTask s a with _ | t
      · rw [hft] at hin
        exact absurd hin (List.not_mem_nil b)
      · rw [hft] at hin
        have hin2 : b ∈ (s.deps.filter (fun d => decide (d.1 = t.id))).map
            (fun d => d.2) := hin
        rw [findTask_id hft] at hin2
        exact List.mem_append_left _ ((mem_rows_iff s a b).mp hin2)
    · by_cases hab : a = bd
      · rw [if_pos hab] at hif
        have hb : b = bk := by simpa using hif
        subst hb
        subst hab
        exact List.mem_append_right _ (by simp)
      · rw [if_neg hab] at hif
        simp at hif
  · intro hmem
    rcases List.mem_append.mp hmem with hin | hnew
    · obtain ⟨t, ht, hta⟩ := h2 (a, b) hin
      have hsome : (findTask s a).isSome :=
        List.find?_isSome.mpr ⟨t, ht, by simp [hta]⟩
      rcases hft : findTask s a with _ | u
      · rw [hft] at hsome
        simp at hsome
      · apply List.mem_append_left
        show b ∈ (s.deps.filter (fun d => decide (d.1 = u.id))).map (fun d => d.2)
        rw [findTask_id hft]
        exact (mem_rows_iff s a b).mpr hin
    · have hpair : a = bd ∧ b = bk := by simpa using hnew
      obtain ⟨rfl, rfl⟩ := hpair
      apply List.mem_append_right
      rw [if_pos rfl]
      simp

lemma add_dependency_inv (s : DBState) (bk bd : TaskId) (p : String)
    (h1 : OneProject p s) (h2 : ClosedDeps s) (h3 : ¬ DepCycle s.deps) :
    OneProject p (add_dependency s bk bd).2 ∧
    ClosedDeps (add_dependency s bk bd).2 ∧
    ¬ DepCycle (add_dependency s bk bd).2.deps := by
  rcases hres : add_dependency s bk bd with ⟨res, s2⟩
  cases res with
  | error e =>
    have hs := add_dependency_error_state hres
    subst hs
    exact ⟨h1, h2, h3⟩
  | ok r =>
    obtain ⟨blocker, blocked, hne, hbk, hbd, hdup, hdc, hcase⟩ := add_ok_cases hres
    have hnocycle : ¬ DepCycle (s.deps ++ [(bd, bk)]) := by
      have hiff := edge_loaded_iff s p bd bk blocked h1 h2 hbd
      intro hcyc
      have hg := (gcycle_iff_depcycle hiff).mpr hcyc
      have hdet := (detect_cycles_iff_aux _ (some (bd, bk))).mpr hg
      rw [hdc] at hdet
      simp at hdet
    have hclosed1 : ClosedDeps { s with deps := s.deps ++ [(bd, bk)] } := by
      intro d hd
      rcases List.mem_append.mp hd with hold | hnew
      · exact h2 d hold
      · have hd2 : d = (bd, bk) := by simpa using hnew
        subst hd2
        exact ⟨blocked, findTask_mem hbd, findTask_id hbd⟩
    rcases hcase with ⟨hst, hr, hs2⟩ | ⟨hst, hr, hs2⟩
    · subst hs2
      exact ⟨h1, hclosed1, hnocycle⟩
    · subst hs2
      exact ⟨oneProject_setStatus h1,
        fun d hd => exists_id_setStatus (hclosed1 d hd), hnocycle⟩

lemma remove_dependency_result (s : DBState) (bk bd : TaskId) :
    (remove_dependency s bk bd).2 = s ∨
    (remove_dependency s bk bd).2
      = { s with deps := s.deps.eraseP (fun d => decide (d.1 = bd) && decide (d.2 = bk)) } ∨
    (remove_dependency s bk bd).2
      = (try_unblock_task { s with
          deps := s.deps.eraseP (fun d => decide (d.1 = bd) && decide (d.2 = bk)) } bd).2 := by
  simp only [remove_dependency]
  split
  · split
    · split
      · right; right; rfl
      · right; left; rfl
    · right; left; rfl
  · left; rfl

lemma remove_dependency_inv (s : DBState) (bk bd : TaskId) (p : String)
    (h1 : OneProject p s) (h2 : ClosedDeps s) (h3 : ¬ DepCycle s.deps) :
    OneProject p (remove_dependency s bk bd).2 ∧
    ClosedDeps (remove_dependency s bk bd).2 ∧
    ¬ DepCycle (remove_dependency s bk bd).2.deps := by
  have hsub : ∀ d ∈ s.deps.eraseP (fun d => decide (d.1 = bd) && decide (d.2 = bk)),
      d ∈ s.deps := fun d hd => (List.eraseP_sublist s.deps).mem hd
  have hnc : ¬ DepCycle (s.deps.eraseP (fun d => decide (d.1 = bd) && decide (d.2 = bk))) :=
    fun hc => h3 (depCycle_mono hsub hc)
  have hone1 : OneProject p { s with
      deps := s.deps.eraseP (fun d => decide (d.1 = bd) && decide (d.2 = bk)) } := h1
  have hcd1 : ClosedDeps { s with
      deps := s.deps.eraseP (fun d => decide (d.1 = bd) && decide (d.2 = bk)) } :=
    fun d hd => h2 d (hsub d hd)
  rcases remove_dependency_result s bk bd with h | h | h <;> rw [h]
  · exact ⟨h1, h2, h3⟩
  · exact ⟨hone1, hcd1, hnc⟩
  · rcases try_unblock_cases { s with
        deps := s.deps.eraseP (fun d => decide (d.1 = bd) && decide (d.2 = bk)) } bd with
      htc | htc <;> rw [htc]
    · exact ⟨oneProject_setStatus hone1,
        fun d hd => exists_id_setStatus (hcd1 d hd), hnc⟩
    · exact ⟨hone1, hcd1, hnc⟩

lemma applyOps_inv (p : String) :
    ∀ (ops : List DagOp) (s : DBState),
      OneProject p s → ClosedDeps s → ¬ DepCycle s.deps →
      OneProject p (applyOps s ops) ∧ ClosedDeps (applyOps s ops) ∧
      ¬ DepCycle (applyOps s ops).deps := by
  intro ops
  induction ops with
  | nil =>
    intro s h1 h2 h3
    exact ⟨h1, h2, h3⟩
  | cons op rest ih =>
    intro s h1 h2 h3
    have hstep : OneProject p (applyOp s op) ∧ ClosedDeps (applyOp s op) ∧
        ¬ DepCycle (applyOp s op).deps := by
      cases op with
      | addDep bk bd => exact add_dependency_inv s bk bd p h1 h2 h3
      | removeDep bk bd => exact remove_dependency_inv s bk bd p h1 h2 h3
    exact ih (applyOp s op) hstep.1 hstep.2.1 hstep.2.2

/-- C1 (amended): within a single project, with every dependency row
referencing an existing task, starting from an acyclic edge set, any
sequence of `add_dependency`/`remove_dependency` calls keeps the edge set
acyclic; in particular a successful add never creates a cycle, and a failed
add leaves the state unchanged.  (Without the single-project restriction
the invariant fails: the cycle check is scoped to the blocked task's
project — see the counterexample.) -/
theorem claim_C1_acyclicity_invariant (p : String) (s : DBState) (ops : List DagOp)
    (h1 : OneProject p s) (h2 : ClosedDeps s) (h3 : ¬ DepCycle s.deps) :
    ¬ DepCycle (applyOps s ops).deps ∧
    (∀ bk bd r s2, add_dependency s bk bd = (Except.ok r, s2) → ¬ DepCycle s2.deps) ∧
    (∀ bk bd e s2, add_dependency s bk bd = (Except.error e, s2) → s2 = s) := by
  refine ⟨(applyOps_inv p ops s h1 h2 h3).2.2, ?_,
    fun bk bd e s2 h => add_dependency_error_state h⟩
  intro bk bd r s2 h
  have hinv := (applyOps_inv p [DagOp.addDep bk bd] s h1 h2 h3).2.2
  have hs2 : (add_dependency s bk bd).2 = s2 := congrArg Prod.snd h
  rw [show applyOps s [DagOp.addDep bk bd] = (add_dependency s bk bd).2 from rfl, hs2] at hinv
  exact hinv

/-- Witness for C1 at a concrete single-project store and one add call. -/
theorem claim_C1_witness :
    ¬ DepCycle (applyOps dbTwo [DagOp.addDep "a" "b"]).deps ∧
    (∀ bk bd r s2, add_dependency dbTwo bk bd = (Except.ok r, s2) → ¬ DepCycle s2.deps) ∧
    (∀ bk bd e s2, add_dependency dbTwo bk bd = (Except.error e, s2) → s2 = dbTwo) :=
  claim_C1_acyclicity_invariant "p" dbTwo [DagOp.addDep "a" "b"]
    (by unfold OneProject; decide) (by unfold ClosedDeps; decide) not_depCycle_nil

/-- Counterexample for C1 as stated: across two projects, two successful
`add_dependency` calls starting from an acyclic (empty) edge set produce a
cyclic edge set, because each cycle check only sees the blocked task's
project.  The second call closes a cycle yet succeeds. -/
theorem claim_C1_counterexample :
    ¬ DepCycle csCross.deps ∧
    (add_dependency csCross "b" "a").1 = Except.ok ⟨"b", "a", TaskStatus.blocked⟩ ∧
    (add_dependency (add_dependency csCross "b" "a").2 "a" "b").1
      = Except.ok ⟨"a", "b", TaskStatus.blocked⟩ ∧
    (applyOps csCross [DagOp.addDep "b" "a", DagOp.addDep "a" "b"]).deps
      = [("a", "b"), ("b", "a")] ∧
    DepCycle (applyOps csCross [DagOp.addDep "b" "a", DagOp.addDep "a" "b"]).deps := by
  refine ⟨not_depCycle_nil, rfl, rfl, rfl, ?_⟩
  exact ⟨"a", Relation.TransGen.head (b := "b") (by decide)
    (Relation.TransGen.single (by decide))⟩

end DagSpec
